import Mathlib

/-!
Shallow embedding of the `ddos_filtering` pipeline
(`src/ddos_filtering/__init__.py`) and proofs about its
natural-language specification.

Modelling conventions:
* Python `int` is `ℤ`; Python `float` timestamps are modelled as exact
  rationals `ℚ` (real-number semantics of the arithmetic in the source).
* Python `int(x)` on a float truncates toward zero (`pyint`).
* Python `%` on integers with a positive right operand agrees with
  `Int.emod`; Python `%` on floats is `x - m * floor (x / m)` (`pyfmod`).
* Python dicts are association lists with unique keys; dict lookup,
  update-or-append and iteration are modelled by structural recursion.
* A Python runtime exception (ZeroDivisionError, ValueError,
  AttributeError) is modelled by `Option.none` / a `crash` outcome.
-/

namespace DdosFiltering

/-- Python `int(x)` applied to a float: truncation toward zero
(computed on the reduced fraction so that it evaluates by kernel
reduction). -/
def pyint (q : ℚ) : ℤ := q.num.tdiv q.den

/-- Mathematical floor of a rational, computed on the reduced fraction. -/
def pyfloor (q : ℚ) : ℤ := q.num.fdiv q.den

/-- Python float modulo `t % m` (for an int divisor `m`):
`t - m * floor (t / m)`. -/
def pyfmod (t : ℚ) (m : ℤ) : ℚ := t - (m : ℚ) * ((pyfloor (t / (m : ℚ)) : ℤ) : ℚ)

/-- The numeric fields of `Configuration` (the dataclass defaults of the
source).  The list of protected destination prefixes is elided: no claim
under verification depends on it. -/
structure Configuration where
  aggregation_time : ℤ := 3600
  ipv4_aggregation : ℤ := 24
  ipv6_aggregation : ℤ := 48
  param_w_train : ℤ := 24
  param_steady : ℤ := 3
  param_heavy : ℤ := 128

/-- The `Configuration()` built from all dataclass defaults. -/
def default_configuration : Configuration := {}

/-- The fields of `NfFlow` used by the aggregation step.  `first` and
`last` are the float results of `datetime.timestamp()`; the source and
destination addresses are elided because no claim under verification
depends on the masking of the source key. -/
structure NfFlow where
  in_packets : ℤ
  dst_port : ℤ
  first : ℚ
  last : ℚ

/-- `int(t) - (int(t) % aggregation_time)`: the bucket computation of the
single-bucket branch of `aggregate_flows` (integer arithmetic). -/
def int_bucket (t : ℚ) (agg : ℤ) : ℤ := pyint t - pyint t % agg

/-- `int(time - (time % aggregation_time))`: the bucket computation of the
packet-spreading branch of `aggregate_flows` (float arithmetic). -/
def float_bucket (t : ℚ) (agg : ℤ) : ℤ := pyint (t - pyfmod t agg)

/-- The per-record body of `aggregate_flows`: the list of
`(bucket, increment)` pairs this flow contributes to `data[src]`.
The source-key masking and the in-place map update are elided (no claim
depends on them); `none` models the `ZeroDivisionError` raised by
`time_total / (flow.in_packets - 1)` when `in_packets == 1` and the first
and last buckets differ. -/
def aggregate_flows (config : Configuration) (flow : NfFlow) :
    Option (List (ℤ × ℤ)) :=
  let first := flow.first
  let last := flow.last
  let first_bucket := int_bucket first config.aggregation_time
  let last_bucket := int_bucket last config.aggregation_time
  if first_bucket = last_bucket then
    some [(first_bucket, flow.in_packets)]
  else if flow.in_packets = 1 then
    none
  else
    let time_total := last - first
    let time_delta_between_packets := time_total / ((flow.in_packets : ℚ) - 1)
    some ((List.range flow.in_packets.toNat).map (fun (i : ℕ) =>
      (float_bucket (first + (i : ℚ) * time_delta_between_packets)
        config.aggregation_time, 1)))

/-- The computable floor agrees with the mathematical floor. -/
theorem pyfloor_eq_floor (q : ℚ) : pyfloor q = ⌊q⌋ := by
  rw [Rat.floor_def, pyfloor, Int.fdiv_eq_ediv _ (Int.natCast_nonneg _)]

/-- Truncation of an exact integer is that integer. -/
theorem pyint_intCast (k : ℤ) : pyint ((k : ℤ) : ℚ) = k := by
  simp [pyint, Int.tdiv_one]

/-- Subtracting the float modulo leaves the exact multiple
`aggregation_time * floor (t / aggregation_time)`. -/
theorem sub_pyfmod (t : ℚ) (m : ℤ) :
    t - pyfmod t m = ((m * pyfloor (t / (m : ℚ)) : ℤ) : ℚ) := by
  unfold pyfmod
  push_cast
  ring

/-- The float-branch bucket is always a multiple of `aggregation_time`. -/
theorem float_bucket_aligned (t : ℚ) (m : ℤ) : float_bucket t m % m = 0 := by
  unfold float_bucket
  rw [sub_pyfmod, pyint_intCast]
  exact Int.mul_emod_right m _

/-- The int-branch bucket is always a multiple of `aggregation_time`. -/
theorem int_bucket_aligned (t : ℚ) (m : ℤ) : int_bucket t m % m = 0 := by
  unfold int_bucket
  rw [Int.emod_def (pyint t) m]
  simp [Int.mul_emod_right]

/-- C5: every bucket key produced by `aggregate_flows` (in either branch)
is congruent to 0 modulo `aggregation_time`. -/
theorem aggregate_flows_bucket_alignment (config : Configuration)
    (flow : NfFlow) (incs : List (ℤ × ℤ))
    (_hagg : 0 < config.aggregation_time)
    (h : aggregate_flows config flow = some incs) :
    ∀ p ∈ incs, p.1 % config.aggregation_time = 0 := by
  intro p hp
  by_cases hb : int_bucket flow.first config.aggregation_time =
      int_bucket flow.last config.aggregation_time
  · simp only [aggregate_flows, if_pos hb, Option.some.injEq] at h
    subst h
    simp only [List.mem_singleton] at hp
    subst hp
    exact int_bucket_aligned _ _
  · by_cases h1 : flow.in_packets = 1
    · simp [aggregate_flows, hb, h1] at h
    · simp only [aggregate_flows, if_neg hb, if_neg h1,
        Option.some.injEq] at h
      subst h
      simp only [List.mem_map] at hp
      obtain ⟨i, hi, rfl⟩ := hp
      exact float_bucket_aligned _ _

/-- C5 witness at a concrete single-bucket flow. -/
theorem aggregate_flows_bucket_alignment_witness :
    ((0 : ℤ) < default_configuration.aggregation_time ∧
      aggregate_flows default_configuration ⟨5, 53, 0, 100⟩ = some [(0, 5)]) ∧
    ∀ p ∈ [((0 : ℤ), (5 : ℤ))], p.1 % default_configuration.aggregation_time = 0 :=
  ⟨⟨by decide, by decide⟩,
    aggregate_flows_bucket_alignment default_configuration ⟨5, 53, 0, 100⟩
      [(0, 5)] (by decide) (by decide)⟩

/-- C2: for every record `aggregate_flows` processes to completion, the
per-bucket increments sum to exactly `in_packets`; the single-bucket
branch yields the one increment `in_packets` and the packet-spreading
branch yields unit increments only. -/
theorem aggregate_flows_conservation (config : Configuration)
    (flow : NfFlow) (incs : List (ℤ × ℤ))
    (hn : 1 ≤ flow.in_packets) (_hfl : flow.first ≤ flow.last)
    (h : aggregate_flows config flow = some incs) :
    (incs.map Prod.snd).sum = flow.in_packets ∧
    (int_bucket flow.first config.aggregation_time =
        int_bucket flow.last config.aggregation_time →
      incs = [(int_bucket flow.first config.aggregation_time,
        flow.in_packets)]) ∧
    (int_bucket flow.first config.aggregation_time ≠
        int_bucket flow.last config.aggregation_time →
      ∀ p ∈ incs, p.2 = 1) := by
  by_cases hb : int_bucket flow.first config.aggregation_time =
      int_bucket flow.last config.aggregation_time
  · simp only [aggregate_flows, if_pos hb, Option.some.injEq] at h
    subst h
    refine ⟨by simp, fun _ => rfl, fun hne => absurd hb hne⟩
  · by_cases h1 : flow.in_packets = 1
    · simp [aggregate_flows, hb, h1] at h
    · simp only [aggregate_flows, if_neg hb, if_neg h1,
        Option.some.injEq] at h
      subst h
      refine ⟨?_, fun heq => absurd heq hb, ?_⟩
      · rw [List.map_map]
        have hconst :
            (Prod.snd ∘ fun i : ℕ =>
              (float_bucket (flow.first + (i : ℚ) *
                ((flow.last - flow.first) / ((flow.in_packets : ℚ) - 1)))
                config.aggregation_time, (1 : ℤ))) = fun _ => (1 : ℤ) := rfl
        rw [hconst, List.map_const', List.sum_replicate, List.length_range,
          nsmul_eq_mul, mul_one, Int.toNat_of_nonneg (by omega)]
      · intro _ p hp
        simp only [List.mem_map] at hp
        obtain ⟨i, hi, rfl⟩ := hp
        rfl

/-- C2 witness at a concrete single-bucket flow. -/
theorem aggregate_flows_conservation_witness :
    ((1 : ℤ) ≤ 5 ∧ (0 : ℚ) ≤ 100 ∧
      aggregate_flows default_configuration ⟨5, 53, 0, 100⟩ = some [(0, 5)]) ∧
    ([((0 : ℤ), (5 : ℤ))].map Prod.snd).sum = (5 : ℤ) :=
  ⟨⟨by decide, by decide, by decide⟩,
    (aggregate_flows_conservation default_configuration ⟨5, 53, 0, 100⟩
      [(0, 5)] (by decide) (by decide) (by decide)).1⟩

/-- C3 counterexample: a flow with `in_packets == 1` whose first and last
timestamps fall in different buckets takes the packet-spreading branch
and hits the division by `in_packets - 1 == 0` (modelled as `none`). -/
theorem aggregate_flows_single_packet_counterexample :
    (⟨1, 53, 0, 7200⟩ : NfFlow).in_packets = 1 ∧
    (⟨1, 53, 0, 7200⟩ : NfFlow).first ≤ (⟨1, 53, 0, 7200⟩ : NfFlow).last ∧
    aggregate_flows default_configuration ⟨1, 53, 0, 7200⟩ = none := by
  refine ⟨rfl, by decide, by decide⟩

/-- C3 amended: a flow with `in_packets == 1` takes the single-bucket
branch exactly when its first and last timestamps fall into the same
bucket; otherwise the packet-spreading branch is reached and the division
by `in_packets - 1 == 0` raises (modelled as `none`). -/
theorem aggregate_flows_single_packet_amended (config : Configuration)
    (flow : NfFlow) (h1 : flow.in_packets = 1) :
    (int_bucket flow.first config.aggregation_time =
        int_bucket flow.last config.aggregation_time →
      aggregate_flows config flow =
        some [(int_bucket flow.first config.aggregation_time, 1)]) ∧
    (int_bucket flow.first config.aggregation_time ≠
        int_bucket flow.last config.aggregation_time →
      aggregate_flows config flow = none) := by
  constructor <;> intro hb <;> simp [aggregate_flows, hb, h1]

/-- C3 witness at a concrete same-bucket single-packet flow. -/
theorem aggregate_flows_single_packet_witness :
    aggregate_flows default_configuration ⟨1, 53, 10, 20⟩ = some [(0, 1)] :=
  (aggregate_flows_single_packet_amended default_configuration
    ⟨1, 53, 10, 20⟩ rfl).1 (by decide)

/-- `now_bucket = int(now) - (int(now) % aggregation_time)` of
`build_allowlist`. -/
def now_bucket (config : Configuration) (now : ℚ) : ℤ :=
  pyint now - pyint now % config.aggregation_time

/-- `earliest_time = now_bucket - aggregation_time * param_w_train` of
`build_allowlist`. -/
def earliest_time (config : Configuration) (now : ℚ) : ℤ :=
  now_bucket config now - config.aggregation_time * config.param_w_train

/-- The filter condition of `build_allowlist`:
`earliest_time <= time and time < now` (the right comparison happens on
floats in the source, so the bucket timestamp is compared against the raw
`now`). -/
def in_window (config : Configuration) (now : ℚ) (time : ℤ) : Bool :=
  decide (earliest_time config now ≤ time ∧ (time : ℚ) < now)

/-- The `valid_traffic` list comprehension of `build_allowlist`: the
counts of the buckets whose timestamp passes `in_window`. -/
def valid_traffic (config : Configuration) (now : ℚ)
    (buckets : List (ℤ × ℤ)) : List ℤ :=
  (buckets.filter (fun p => in_window config now p.1)).map Prod.snd

/-- The per-source body of the `build_allowlist` loop.
`some none` models `continue`, `some (some entry)` models inserting the
peak into the allowlist, and `none` models the `ValueError` raised by
`max([])` (reachable only when `param_steady <= 0`). -/
def allow_entry {α : Type} (config : Configuration) (now : ℚ)
    (e : α × List (ℤ × ℤ)) : Option (Option (α × ℤ)) :=
  let valid := valid_traffic config now e.2
  if (valid.length : ℤ) < config.param_steady then some none
  else
    match valid.max? with
    | none => none
    | some m => if m < config.param_heavy then some none else some (some (e.1, m))

/-- `build_allowlist`: iterate the merged data and keep the sources that
are steady and heavy inside the training window, storing the peak bucket
count.  `none` models an uncaught `ValueError`. -/
def build_allowlist {α : Type} :
    List (α × List (ℤ × ℤ)) → Configuration → ℚ → Option (List (α × ℤ))
  | [], _, _ => some []
  | e :: rest, config, now =>
    match allow_entry config now e, build_allowlist rest config now with
    | some h, some acc => some (h.toList ++ acc)
    | _, _ => none

/-- C1 counterexample: for the unaligned reference time `now = 3700`
(default configuration, `now_bucket = 3600`), the bucket at exactly
`now_bucket` passes the window filter and its count is collected — the
claim says it must be excluded for every `now`. -/
theorem build_allowlist_window_counterexample :
    now_bucket default_configuration (3700 : ℚ) = 3600 ∧
    in_window default_configuration (3700 : ℚ) 3600 = true ∧
    valid_traffic default_configuration (3700 : ℚ) [(3600, 200)] = [200] := by
  refine ⟨by decide, by decide, by decide⟩

/-- C1 amended: when `now` is aligned (it equals its own bucket), the
bucket at `now_bucket` is excluded and — for `param_w_train >= 1` — the
bucket at `now_bucket - aggregation_time` is included; when instead
`now_bucket < now` (unaligned `now`), the bucket at `now_bucket` is
included, because the upper end of the window is the raw `now`. -/
theorem build_allowlist_window_amended (config : Configuration) (now : ℚ)
    (hagg : 0 < config.aggregation_time) (hw : 1 ≤ config.param_w_train) :
    (now = ((now_bucket config now : ℤ) : ℚ) →
      in_window config now (now_bucket config now) = false ∧
      in_window config now
        (now_bucket config now - config.aggregation_time) = true) ∧
    (((now_bucket config now : ℤ) : ℚ) < now →
      in_window config now (now_bucket config now) = true) := by
  set nb := now_bucket config now with hnb
  constructor
  · intro haligned
    constructor
    · simp only [in_window, decide_eq_false_iff_not, not_and, not_lt]
      intro _
      exact haligned.le
    · simp only [in_window, decide_eq_true_eq]
      constructor
      · unfold earliest_time
        rw [← hnb]
        have h1 : config.aggregation_time * 1 ≤
            config.aggregation_time * config.param_w_train :=
          mul_le_mul_of_nonneg_left hw (le_of_lt hagg)
        linarith
      · rw [haligned]
        have h1 : (0 : ℚ) < (config.aggregation_time : ℚ) := by
          exact_mod_cast hagg
        push_cast
        linarith
  · intro hlt
    simp only [in_window, decide_eq_true_eq]
    refine ⟨?_, hlt⟩
    unfold earliest_time
    rw [← hnb]
    have h1 : 0 ≤ config.aggregation_time * config.param_w_train :=
      mul_nonneg (le_of_lt hagg) (by linarith)
    linarith

/-- C1 witness at the aligned reference time `now = 7200`. -/
theorem build_allowlist_window_witness :
    ((0 : ℤ) < default_configuration.aggregation_time ∧
      (1 : ℤ) ≤ default_configuration.param_w_train ∧
      (7200 : ℚ) = ((now_bucket default_configuration 7200 : ℤ) : ℚ)) ∧
    in_window default_configuration 7200
      (now_bucket default_configuration 7200) = false ∧
    in_window default_configuration 7200
      (now_bucket default_configuration 7200 -
        default_configuration.aggregation_time) = true :=
  ⟨⟨by decide, by decide, by decide⟩,
    (build_allowlist_window_amended default_configuration 7200
      (by decide) (by decide)).1 (by decide)⟩

/-- Characterization of a successful `allow_entry` insertion. -/
theorem allow_entry_some_some {α : Type} (config : Configuration) (now : ℚ)
    (e : α × List (ℤ × ℤ)) (k : α) (v : ℤ) :
    allow_entry config now e = some (some (k, v)) ↔
      e.1 = k ∧
      config.param_steady ≤ ((valid_traffic config now e.2).length : ℤ) ∧
      (valid_traffic config now e.2).max? = some v ∧
      config.param_heavy ≤ v := by
  simp only [allow_entry]
  split
  case isTrue hlen =>
    simp only [Option.some.injEq]
    constructor
    · intro hfalse
      exact absurd hfalse (by simp)
    · intro ⟨_, hsteady, _, _⟩
      omega
  case isFalse hlen =>
    cases hmax : (valid_traffic config now e.2).max? with
    | none => simp [hmax]
    | some m =>
      simp only [hmax]
      split
      case isTrue hheavy =>
        simp only [Option.some.injEq]
        constructor
        · intro hfalse
          exact absurd hfalse (by simp)
        · rintro ⟨_, _, hv, hh⟩
          omega
      case isFalse hheavy =>
        simp only [Option.some.injEq, Option.some.injEq, Prod.mk.injEq]
        constructor
        · rintro ⟨hk, hv⟩
          refine ⟨hk, by omega, by rw [hv], by omega⟩
        · rintro ⟨hk, _, hv, hh⟩
          exact ⟨hk, hv⟩

/-- C4: a successful `build_allowlist` result contains `(ip, v)` exactly
when `data` has an entry for `ip` with at least `param_steady` bucket
counts inside the training window whose maximum is `v >= param_heavy`. -/
theorem build_allowlist_membership {α : Type} (data : List (α × List (ℤ × ℤ)))
    (config : Configuration) (now : ℚ) (res : List (α × ℤ)) (ip : α) (v : ℤ)
    (hres : build_allowlist data config now = some res) :
    (ip, v) ∈ res ↔ ∃ bs, (ip, bs) ∈ data ∧
      config.param_steady ≤ ((valid_traffic config now bs).length : ℤ) ∧
      (valid_traffic config now bs).max? = some v ∧
      config.param_heavy ≤ v := by
  induction data generalizing res with
  | nil =>
    simp only [build_allowlist, Option.some.injEq] at hres
    subst hres
    simp
  | cons e rest ih =>
    rw [build_allowlist] at hres
    cases he : allow_entry config now e with
    | none => rw [he] at hres; exact absurd hres (by simp)
    | some hd =>
      cases hrest : build_allowlist rest config now with
      | none => rw [he, hrest] at hres; exact absurd hres (by simp)
      | some acc =>
        rw [he, hrest, Option.some.injEq] at hres
        subst hres
        rw [List.mem_append, ih acc hrest]
        constructor
        · rintro (hmem | ⟨bs, hbs, hrest2⟩)
          · cases hd with
            | none => exact absurd hmem (by simp)
            | some p =>
              simp only [Option.toList_some, List.mem_singleton] at hmem
              subst hmem
              have hchar := (allow_entry_some_some config now e ip v).mp he
              have hpair : (ip, e.2) = e := by
                rw [← hchar.1]
              exact ⟨e.2, by rw [hpair]; exact List.mem_cons_self e rest,
                hchar.2.1, hchar.2.2.1, hchar.2.2.2⟩
          · exact ⟨bs, List.mem_cons_of_mem _ hbs, hrest2⟩
        · rintro ⟨bs, hbs, hcond⟩
          rcases List.mem_cons.mp hbs with heq | hmem
          · left
            have : allow_entry config now e = some (some (ip, v)) := by
              rw [allow_entry_some_some]
              have h1 : e.1 = ip := by rw [← heq]
              have h2 : e.2 = bs := by rw [← heq]
              rw [h2]
              exact ⟨h1, hcond⟩
            rw [this] at he
            rw [Option.some.injEq] at he
            rw [← he]
            simp
          · right
            exact ⟨bs, hmem, hcond⟩

/-- C4 witness on a concrete map: the steady and heavy source `7` is kept
with its window peak `300`, and nothing else is. -/
theorem build_allowlist_membership_witness :
    build_allowlist [((7 : ℤ), [(0, 200), (3600, 150), (7200, 300)])]
      default_configuration 10800 = some [(7, 300)] ∧
    (((7 : ℤ), (300 : ℤ)) ∈ [((7 : ℤ), (300 : ℤ))] ↔
      ∃ bs, ((7 : ℤ), bs) ∈ [((7 : ℤ), [((0 : ℤ), (200 : ℤ)), (3600, 150), (7200, 300)])] ∧
        default_configuration.param_steady ≤
          ((valid_traffic default_configuration 10800 bs).length : ℤ) ∧
        (valid_traffic default_configuration 10800 bs).max? = some 300 ∧
        default_configuration.param_heavy ≤ 300) :=
  ⟨by decide,
    build_allowlist_membership
      [((7 : ℤ), [(0, 200), (3600, 150), (7200, 300)])]
      default_configuration 10800 [(7, 300)] 7 300 (by decide)⟩

/-- Python dict lookup on an association list: first binding wins. -/
def dict_get {α β : Type} [DecidableEq α] : List (α × β) → α → Option β
  | [], _ => none
  | p :: rest, k => if p.1 = k then some p.2 else dict_get rest k

/-- Python dict assignment `d[k] = v`: replace the first binding of `k`
in place, or append a new binding at the end. -/
def dict_set {α β : Type} [DecidableEq α] :
    List (α × β) → α → β → List (α × β)
  | [], k, v => [(k, v)]
  | p :: rest, k, v =>
    if p.1 = k then (k, v) :: rest else p :: dict_set rest k v

/-- The inner loop of `merge_data`:
`data_a[src][time] = data_a[src].get(time, 0) + count` for every bucket
of the incoming inner dict. -/
def inner_merge (da db : List (ℤ × ℤ)) : List (ℤ × ℤ) :=
  db.foldl (fun acc p => dict_set acc p.1 ((dict_get acc p.1).getD 0 + p.2)) da

/-- The outer loop of `merge_data`: iterate the items of `data_b` into
`data_a`, moving an absent source wholesale and merging a present one
bucket-wise. -/
def merge_go {α : Type} [DecidableEq α]
    (data_a data_b : List (α × List (ℤ × ℤ))) : List (α × List (ℤ × ℤ)) :=
  data_b.foldl (fun acc e =>
    match dict_get acc e.1 with
    | none => acc ++ [e]
    | some da => dict_set acc e.1 (inner_merge da e.2)) data_a

/-- `merge_data`: swap so the smaller dict becomes the accumulator
(`if len(data_a) > len(data_b)`), then fold the other dict in. -/
def merge_data {α : Type} [DecidableEq α]
    (data_a data_b : List (α × List (ℤ × ℤ))) : List (α × List (ℤ × ℤ)) :=
  if data_b.length < data_a.length then merge_go data_b data_a
  else merge_go data_a data_b

/-- Combination of two optional bucket counts: a bucket present on one
side keeps its count, present on both sides adds. -/
def ocomb (x y : Option ℤ) : Option ℤ :=
  match x, y with
  | none, y => y
  | some a, none => some a
  | some a, some b => some (a + b)

/-- Combination of two optional inner dicts under `merge_data`. -/
def mcomb (x y : Option (List (ℤ × ℤ))) : Option (List (ℤ × ℤ)) :=
  match x, y with
  | none, y => y
  | some da, none => some da
  | some da, some db => some (inner_merge da db)

/-- The count stored for source `k` and bucket `t` (`none` when the
source or the bucket is absent). -/
def cnt {α : Type} [DecidableEq α] (m : List (α × List (ℤ × ℤ)))
    (k : α) (t : ℤ) : Option ℤ :=
  (dict_get m k).bind (fun d => dict_get d t)

/-- Well-formedness of a CountMap as guaranteed by Python dicts: unique
source keys and unique bucket keys per source. -/
def wf {α : Type} (m : List (α × List (ℤ × ℤ))) : Prop :=
  (m.map Prod.fst).Nodup ∧ ∀ e ∈ m, (e.2.map Prod.fst).Nodup

instance decidable_wf {α : Type} [DecidableEq α]
    (m : List (α × List (ℤ × ℤ))) : Decidable (wf m) := by
  unfold wf
  infer_instance

theorem ocomb_none_right (x : Option ℤ) : ocomb x none = x := by
  cases x <;> rfl

theorem ocomb_comm (x y : Option ℤ) : ocomb x y = ocomb y x := by
  cases x <;> cases y <;> simp [ocomb, Int.add_comm]

theorem mcomb_none_right (x : Option (List (ℤ × ℤ))) : mcomb x none = x := by
  cases x <;> rfl

theorem dict_get_set {α β : Type} [DecidableEq α] (d : List (α × β))
    (k j : α) (v : β) :
    dict_get (dict_set d k v) j = if k = j then some v else dict_get d j := by
  induction d with
  | nil =>
    simp only [dict_set, dict_get]
  | cons p rest ih =>
    by_cases hpk : p.1 = k
    · simp only [dict_set, if_pos hpk]
      by_cases hkj : k = j
      · simp [dict_get, hkj, hpk]
      · simp [dict_get, hkj, hpk]
    · simp only [dict_set, if_neg hpk]
      by_cases hpj : p.1 = j
      · have hkj : ¬k = j := fun h => hpk (hpj.trans h.symm)
        simp [dict_get, hpj, hkj]
      · simp [dict_get, hpj, ih]

theorem dict_get_eq_none_of_not_mem {α β : Type} [DecidableEq α]
    {d : List (α × β)} {k : α} (h : k ∉ d.map Prod.fst) :
    dict_get d k = none := by
  induction d with
  | nil => rfl
  | cons p rest ih =>
    simp only [List.map_cons, List.mem_cons, not_or] at h
    rw [dict_get, if_neg (fun he => h.1 he.symm)]
    exact ih h.2

theorem mem_of_dict_get_some {α β : Type} [DecidableEq α]
    {d : List (α × β)} {k : α} {v : β} (h : dict_get d k = some v) :
    (k, v) ∈ d := by
  induction d with
  | nil => simp [dict_get] at h
  | cons p rest ih =>
    simp only [dict_get] at h
    by_cases hpk : p.1 = k
    · rw [if_pos hpk, Option.some.injEq] at h
      have hp : (k, v) = p := by
        rw [← hpk, ← h]
      rw [hp]
      exact List.mem_cons_self p rest
    · rw [if_neg hpk] at h
      exact List.mem_cons_of_mem _ (ih h)

theorem dict_get_append {α β : Type} [DecidableEq α]
    (d1 d2 : List (α × β)) (k : α) :
    dict_get (d1 ++ d2) k =
      match dict_get d1 k with
      | some v => some v
      | none => dict_get d2 k := by
  induction d1 with
  | nil => rfl
  | cons p rest ih =>
    by_cases hpk : p.1 = k <;> simp [dict_get, hpk, ih]

theorem dict_get_inner_merge (db da : List (ℤ × ℤ)) (t : ℤ)
    (hnd : (db.map Prod.fst).Nodup) :
    dict_get (inner_merge da db) t = ocomb (dict_get da t) (dict_get db t) := by
  induction db generalizing da with
  | nil =>
    show dict_get da t = ocomb (dict_get da t) (dict_get [] t)
    rw [show dict_get ([] : List (ℤ × ℤ)) t = none from rfl, ocomb_none_right]
  | cons q rest ih =>
    simp only [List.map_cons, List.nodup_cons] at hnd
    show dict_get (inner_merge (dict_set da q.1
      ((dict_get da q.1).getD 0 + q.2)) rest) t = _
    rw [ih _ hnd.2, dict_get_set]
    by_cases hqt : q.1 = t
    · subst hqt
      have hrest : dict_get rest q.1 = none :=
        dict_get_eq_none_of_not_mem (by simpa using hnd.1)
      rw [hrest, if_pos rfl, ocomb_none_right]
      rw [show dict_get (q :: rest) q.1 = some q.2 by
        simp [dict_get]]
      cases hda : dict_get da q.1 <;> simp [ocomb, Option.getD]
    · rw [if_neg hqt]
      rw [show dict_get (q :: rest) t = dict_get rest t by
        simp [dict_get, hqt]]

theorem dict_get_merge_step {α : Type} [DecidableEq α]
    (a : List (α × List (ℤ × ℤ))) (e : α × List (ℤ × ℤ)) (k : α) :
    dict_get (match dict_get a e.1 with
      | none => a ++ [e]
      | some da => dict_set a e.1 (inner_merge da e.2)) k =
    mcomb (dict_get a k) (if e.1 = k then some e.2 else none) := by
  cases hae : dict_get a e.1 with
  | none =>
    by_cases hek : e.1 = k
    · subst hek
      rw [if_pos rfl, dict_get_append, hae]
      rw [show dict_get [e] e.1 = some e.2 by simp [dict_get]]
      rfl
    · rw [if_neg hek, dict_get_append]
      rw [show dict_get [e] k = none by simp [dict_get, hek]]
      cases dict_get a k <;> rfl
  | some da =>
    rw [dict_get_set]
    by_cases hek : e.1 = k
    · subst hek
      rw [if_pos rfl, if_pos rfl, hae]
      rfl
    · rw [if_neg hek, if_neg hek, mcomb_none_right]

theorem dict_get_merge_go {α : Type} [DecidableEq α]
    (src acc : List (α × List (ℤ × ℤ))) (k : α)
    (hnd : (src.map Prod.fst).Nodup) :
    dict_get (merge_go acc src) k =
      mcomb (dict_get acc k) (dict_get src k) := by
  induction src generalizing acc with
  | nil =>
    show dict_get acc k = mcomb (dict_get acc k) (dict_get [] k)
    rw [show dict_get ([] : List (α × List (ℤ × ℤ))) k = none from rfl,
      mcomb_none_right]
  | cons e rest ih =>
    simp only [List.map_cons, List.nodup_cons] at hnd
    show dict_get (merge_go (match dict_get acc e.1 with
      | none => acc ++ [e]
      | some da => dict_set acc e.1 (inner_merge da e.2)) rest) k = _
    rw [ih _ hnd.2, dict_get_merge_step]
    by_cases hek : e.1 = k
    · subst hek
      have hrest : dict_get rest e.1 = none :=
        dict_get_eq_none_of_not_mem (by simpa using hnd.1)
      rw [hrest, if_pos rfl, mcomb_none_right]
      rw [show dict_get (e :: rest) e.1 = some e.2 by simp [dict_get]]
    · rw [if_neg hek, mcomb_none_right]
      rw [show dict_get (e :: rest) k = dict_get rest k by
        simp [dict_get, hek]]

theorem inner_nodup_of_wf {α : Type} [DecidableEq α]
    {m : List (α × List (ℤ × ℤ))} {k : α} {d : List (ℤ × ℤ)}
    (hwf : wf m) (h : dict_get m k = some d) : (d.map Prod.fst).Nodup :=
  hwf.2 (k, d) (mem_of_dict_get_some h)

theorem mcomb_bind_cnt (x y : Option (List (ℤ × ℤ))) (t : ℤ)
    (hy : ∀ d, y = some d → (d.map Prod.fst).Nodup) :
    (mcomb x y).bind (fun d => dict_get d t) =
      ocomb (x.bind (fun d => dict_get d t))
        (y.bind (fun d => dict_get d t)) := by
  cases x with
  | none => cases y <;> rfl
  | some da =>
    cases y with
    | none => exact (ocomb_none_right _).symm
    | some db =>
      show dict_get (inner_merge da db) t = _
      exact dict_get_inner_merge db da t (hy db rfl)

theorem cnt_merge_data {α : Type} [DecidableEq α]
    (a b : List (α × List (ℤ × ℤ))) (ha : wf a) (hb : wf b) (k : α) (t : ℤ) :
    cnt (merge_data a b) k t = ocomb (cnt a k t) (cnt b k t) := by
  unfold merge_data
  split
  · rw [cnt, dict_get_merge_go a b k ha.1,
      mcomb_bind_cnt _ _ t (fun d hd => inner_nodup_of_wf ha hd),
      ocomb_comm]
    rfl
  · rw [cnt, dict_get_merge_go b a k hb.1,
      mcomb_bind_cnt _ _ t (fun d hd => inner_nodup_of_wf hb hd)]
    rfl

theorem isSome_dict_get_merge_data {α : Type} [DecidableEq α]
    (a b : List (α × List (ℤ × ℤ))) (ha : wf a) (hb : wf b) (k : α) :
    (dict_get (merge_data a b) k).isSome =
      ((dict_get a k).isSome || (dict_get b k).isSome) := by
  unfold merge_data
  split
  · rw [dict_get_merge_go a b k ha.1]
    cases dict_get a k <;> cases dict_get b k <;> simp [mcomb]
  · rw [dict_get_merge_go b a k hb.1]
    cases dict_get a k <;> cases dict_get b k <;> simp [mcomb]

/-- C6: `merge_data` is commutative as a value: both orders contain the
same source keys, and for every source and bucket the same optional
count — which is the `ocomb`-sum of the two inputs' counts. -/
theorem merge_data_comm {α : Type} [DecidableEq α]
    (a b : List (α × List (ℤ × ℤ))) (ha : wf a) (hb : wf b) (k : α) (t : ℤ) :
    (dict_get (merge_data a b) k).isSome =
      (dict_get (merge_data b a) k).isSome ∧
    cnt (merge_data a b) k t = cnt (merge_data b a) k t ∧
    cnt (merge_data a b) k t = ocomb (cnt a k t) (cnt b k t) := by
  refine ⟨?_, ?_, cnt_merge_data a b ha hb k t⟩
  · rw [isSome_dict_get_merge_data a b ha hb,
      isSome_dict_get_merge_data b a hb ha, Bool.or_comm]
  · rw [cnt_merge_data a b ha hb, cnt_merge_data b a hb ha, ocomb_comm]

/-- C6 witness on two small concrete maps sharing source `0`. -/
theorem merge_data_comm_witness :
    (wf [((0 : ℤ), [((0 : ℤ), (2 : ℤ)), (3600, 1)])] ∧
      wf [((0 : ℤ), [((0 : ℤ), (3 : ℤ))]), (1, [(0, 4)])]) ∧
    (dict_get (merge_data [((0 : ℤ), [((0 : ℤ), (2 : ℤ)), (3600, 1)])]
        [((0 : ℤ), [((0 : ℤ), (3 : ℤ))]), (1, [(0, 4)])] ) 0).isSome =
      (dict_get (merge_data [((0 : ℤ), [((0 : ℤ), (3 : ℤ))]), (1, [(0, 4)])]
        [((0 : ℤ), [((0 : ℤ), (2 : ℤ)), (3600, 1)])]) 0).isSome ∧
    cnt (merge_data [((0 : ℤ), [((0 : ℤ), (2 : ℤ)), (3600, 1)])]
        [((0 : ℤ), [((0 : ℤ), (3 : ℤ))]), (1, [(0, 4)])]) 0 0 =
      cnt (merge_data [((0 : ℤ), [((0 : ℤ), (3 : ℤ))]), (1, [(0, 4)])]
        [((0 : ℤ), [((0 : ℤ), (2 : ℤ)), (3600, 1)])]) 0 0 ∧
    cnt (merge_data [((0 : ℤ), [((0 : ℤ), (2 : ℤ)), (3600, 1)])]
        [((0 : ℤ), [((0 : ℤ), (3 : ℤ))]), (1, [(0, 4)])]) 0 0 =
      ocomb (cnt [((0 : ℤ), [((0 : ℤ), (2 : ℤ)), (3600, 1)])] 0 0)
        (cnt [((0 : ℤ), [((0 : ℤ), (3 : ℤ))]), (1, [(0, 4)])] 0 0) :=
  ⟨⟨by decide, by decide⟩,
    merge_data_comm [((0 : ℤ), [((0 : ℤ), (2 : ℤ)), (3600, 1)])]
      [((0 : ℤ), [((0 : ℤ), (3 : ℤ))]), (1, [(0, 4)])]
      (by decide) (by decide) 0 0⟩

/-- Minimal quoting of the csv `excel` dialect used by `DictWriter`:
a field containing the delimiter, the quote character or a line break is
wrapped in double quotes with inner quotes doubled; all other fields are
written verbatim. -/
def csv_field (s : String) : String :=
  if s.any (fun c => c = ',' || c = '"' || c = '\r' || c = '\n') then
    "\"" ++ (s.replace "\"" "\"\"") ++ "\""
  else s

/-- One `DictWriter` row: the stringified `ip` and `packets` fields
joined by a comma and terminated by the `excel` dialect line terminator,
which is CRLF. -/
def csv_row (p : String × ℤ) : String :=
  (csv_field p.1 ++ "," ++ csv_field (toString p.2)) ++ "\r\n"

/-- `write_allowlist_as_csv`: `writeheader()` writes `ip,packets` plus
the CRLF terminator, then `writerows` appends one row per allowlist
entry to the stream. -/
def write_allowlist_as_csv (allowlist : List (String × ℤ)) : String :=
  allowlist.foldl (fun acc p => acc ++ csv_row p) "ip,packets\r\n"

/-- Concatenation of a list of emitted lines. -/
def concat_lines : List String → String
  | [] => ""
  | s :: rest => s ++ concat_lines rest

theorem foldl_append_eq_concat_lines (l : List (String × ℤ)) (acc : String) :
    l.foldl (fun a p => a ++ csv_row p) acc =
      acc ++ concat_lines (l.map csv_row) := by
  induction l generalizing acc with
  | nil =>
    rw [List.foldl_nil, List.map_nil]
    exact (String.append_empty acc).symm
  | cons p rest ih =>
    rw [List.foldl_cons, List.map_cons, ih]
    show (acc ++ csv_row p) ++ concat_lines (rest.map csv_row) =
      acc ++ (csv_row p ++ concat_lines (rest.map csv_row))
    rw [String.append_assoc]

/-- C8 counterexample: even the header line is terminated by CRLF, not
LF — the output for an empty allowlist is `ip,packets\r\n`, which is not
the LF-terminated `ip,packets\n` the claim requires. -/
theorem write_allowlist_as_csv_counterexample :
    write_allowlist_as_csv [] = "ip,packets\r\n" ∧
    write_allowlist_as_csv [] ≠ "ip,packets\n" := by
  refine ⟨rfl, by decide⟩

/-- C8 amended: the output is the header row `ip,packets` followed by
one row per entry, but every line — header included — is terminated by
CRLF (`\r\n`), the csv `excel` dialect default, not by a bare LF. -/
theorem write_allowlist_as_csv_amended (allowlist : List (String × ℤ)) :
    write_allowlist_as_csv allowlist =
      concat_lines ("ip,packets\r\n" :: allowlist.map csv_row) ∧
    ∀ s ∈ "ip,packets\r\n" :: allowlist.map csv_row,
      ∃ t, s = t ++ "\r\n" := by
  constructor
  · show allowlist.foldl (fun a p => a ++ csv_row p) "ip,packets\r\n" = _
    rw [foldl_append_eq_concat_lines]
    rfl
  · intro s hs
    rcases List.mem_cons.mp hs with hh | hrow
    · exact ⟨"ip,packets", by rw [hh]; decide⟩
    · rcases List.mem_map.mp hrow with ⟨p, _, hp⟩
      exact ⟨csv_field p.1 ++ "," ++ csv_field (toString p.2), hp.symm⟩

/-- The observable outcome of one `main` invocation. -/
inductive MainOutcome where
  | usage_error : MainOutcome
  | crash : MainOutcome
  | summary : ℕ → MainOutcome
  | csv_output : String → MainOutcome
deriving DecidableEq

/-- The driver `main`, abstracted over the per-file partial CountMaps
returned by `process_netflow_file` (the nfdump subprocess and the JSON
streaming are external I/O).  `usage_error` models the argparse exit
code 2 when the positional FILES list (declared with `nargs="+"`) is
empty; `crash` models the uncaught `AttributeError` of
`optional_datetime(args.now).timestamp()` when `-n` was not supplied,
and an uncaught `ValueError` escaping `build_allowlist`.  Writing to
`-` (stdout) and to a path both produce the same CSV text. -/
def main (config : Configuration) (now : Option ℚ) (output : Option String)
    (file_results : List (List (String × List (ℤ × ℤ)))) : MainOutcome :=
  if file_results.isEmpty then MainOutcome.usage_error
  else
    let data := file_results.foldl merge_data []
    match now with
    | none => MainOutcome.crash
    | some n =>
      match build_allowlist data config n with
      | none => MainOutcome.crash
      | some allowlist =>
        match output with
        | none => MainOutcome.summary allowlist.length
        | some _ => MainOutcome.csv_output (write_allowlist_as_csv allowlist)

/-- C7 counterexample: invoking the program with zero input files is a
usage error (argparse `nargs="+"` demands at least one FILES argument),
not a successful run reporting 0 entries. -/
theorem main_zero_files_counterexample :
    main default_configuration (some 7200) none [] =
      MainOutcome.usage_error ∧
    MainOutcome.usage_error ≠ MainOutcome.summary 0 := by
  refine ⟨rfl, by decide⟩

/-- C7 amended: zero input files is an argparse usage error; but an
empty *allowlist* is not an error — with at least one input file, `-n`
supplied and `-o` absent, the run completes and the summary reports 0
entries. -/
theorem main_empty_result_amended (config : Configuration) (now : ℚ)
    (output : Option String)
    (file_results : List (List (String × List (ℤ × ℤ))))
    (hne : file_results ≠ [])
    (hempty : build_allowlist (file_results.foldl merge_data []) config now =
      some []) :
    main config (some now) output [] = MainOutcome.usage_error ∧
    main config (some now) none file_results = MainOutcome.summary 0 := by
  refine ⟨rfl, ?_⟩
  cases file_results with
  | nil => exact absurd rfl hne
  | cons f rest =>
    rw [List.foldl_cons] at hempty
    simp [main, hempty]

/-- C7 witness: one input file whose only source is not steady, so the
allowlist is empty and the summary reports 0 entries. -/
theorem main_empty_result_witness :
    ([[(("k" : String), [((0 : ℤ), (1 : ℤ))])]] ≠
        ([] : List (List (String × List (ℤ × ℤ)))) ∧
      build_allowlist
        ([[(("k" : String), [((0 : ℤ), (1 : ℤ))])]].foldl merge_data [])
        default_configuration 7200 = some []) ∧
    main default_configuration (some 7200) none [] =
      MainOutcome.usage_error ∧
    main default_configuration (some 7200) none
      [[(("k" : String), [((0 : ℤ), (1 : ℤ))])]] = MainOutcome.summary 0 :=
  ⟨⟨by decide, by decide⟩,
    main_empty_result_amended default_configuration 7200 none
      [[(("k" : String), [((0 : ℤ), (1 : ℤ))])]] (by decide) (by decide)⟩

/-- C9 counterexample: with `-o` absent but also `-n` absent, the
program does not run to completion printing the summary — it crashes
with `AttributeError` on `optional_datetime(None).timestamp()`. -/
theorem main_now_missing_counterexample :
    main default_configuration none none
      [[(("k" : String), [((0 : ℤ), (5 : ℤ))])]] = MainOutcome.crash := by
  decide

/-- C9 amended: `-n` is required in every invocation, not only with
`-o`: without it the run crashes; with `-n` supplied and `-o` absent the
run completes printing only the one-line summary. -/
theorem main_now_required_amended (config : Configuration)
    (output : Option String) (now : ℚ) (allowlist : List (String × ℤ))
    (file_results : List (List (String × List (ℤ × ℤ))))
    (hne : file_results ≠ [])
    (hbuild : build_allowlist (file_results.foldl merge_data []) config now =
      some allowlist) :
    main config none output file_results = MainOutcome.crash ∧
    main config (some now) none file_results =
      MainOutcome.summary allowlist.length := by
  cases file_results with
  | nil => exact absurd rfl hne
  | cons f rest =>
    rw [List.foldl_cons] at hbuild
    constructor
    · simp [main]
    · simp [main, hbuild]

/-- C9 witness: a steady and heavy source yields a one-entry allowlist;
without `-n` the same invocation crashes. -/
theorem main_now_required_witness :
    ([[(("k" : String), [((0 : ℤ), (200 : ℤ)), (3600, 150), (7200, 300)])]] ≠
        ([] : List (List (String × List (ℤ × ℤ)))) ∧
      build_allowlist
        ([[(("k" : String),
          [((0 : ℤ), (200 : ℤ)), (3600, 150), (7200, 300)])]].foldl
          merge_data [])
        default_configuration 10800 = some [("k", 300)]) ∧
    main default_configuration none none
      [[(("k" : String), [((0 : ℤ), (200 : ℤ)), (3600, 150), (7200, 300)])]] =
      MainOutcome.crash ∧
    main default_configuration (some 10800) none
      [[(("k" : String), [((0 : ℤ), (200 : ℤ)), (3600, 150), (7200, 300)])]] =
      MainOutcome.summary 1 :=
  ⟨⟨by decide, by decide⟩,
    main_now_required_amended default_configuration none 10800 [("k", 300)]
      [[(("k" : String), [((0 : ℤ), (200 : ℤ)), (3600, 150), (7200, 300)])]]
      (by decide) (by decide)⟩

/-- A parsed ISO-8601 timestamp as `datetime.fromisoformat` sees it:
the wall-clock reading (expressed as seconds since the epoch of the
naive clock fields) and the optional explicit UTC offset of the
string. -/
structure IsoDatetime where
  clock_seconds : ℤ
  utc_offset : Option ℤ

/-- `optional_datetime`: `None` maps to `None`; otherwise
`datetime.fromisoformat(dt).replace(tzinfo=timezone.utc)` keeps the
parsed wall-clock fields unchanged and stamps them UTC, so the decoded
instant is the bare wall-clock reading and any explicit offset in the
string is discarded. -/
def optional_datetime (dt : Option IsoDatetime) : Option ℤ :=
  dt.map (fun d => d.clock_seconds)

/-- The instant a timestamp string with an offset actually denotes:
wall clock minus offset. -/
def denoted_instant (d : IsoDatetime) : ℤ :=
  d.clock_seconds - d.utc_offset.getD 0

/-- C10: `optional_datetime` decodes a timestamp to its bare wall-clock
reading, discarding an explicit offset; hence two strings denoting the
same instant under different offsets decode to different instants. -/
theorem optional_datetime_offset_discard (d1 d2 : IsoDatetime) (o1 o2 : ℤ)
    (h1 : d1.utc_offset = some o1) (h2 : d2.utc_offset = some o2)
    (hsame : denoted_instant d1 = denoted_instant d2) (hoff : o1 ≠ o2) :
    optional_datetime (some d1) = some d1.clock_seconds ∧
    optional_datetime (some d2) = some d2.clock_seconds ∧
    optional_datetime (some d1) ≠ optional_datetime (some d2) := by
  refine ⟨rfl, rfl, ?_⟩
  intro he
  have hc : d1.clock_seconds = d2.clock_seconds := by
    simpa [optional_datetime] using he
  unfold denoted_instant at hsame
  rw [h1, h2] at hsame
  simp only [Option.getD_some] at hsame
  omega

/-- C10 witness: `12:00+02:00` and `10:00+00:00` denote the same
instant but decode to different values. -/
theorem optional_datetime_offset_discard_witness :
    ((⟨43200, some 7200⟩ : IsoDatetime).utc_offset = some 7200 ∧
      (⟨36000, some 0⟩ : IsoDatetime).utc_offset = some 0 ∧
      denoted_instant ⟨43200, some 7200⟩ = denoted_instant ⟨36000, some 0⟩ ∧
      (7200 : ℤ) ≠ 0) ∧
    optional_datetime (some ⟨43200, some 7200⟩) = some 43200 ∧
    optional_datetime (some ⟨36000, some 0⟩) = some 36000 ∧
    optional_datetime (some ⟨43200, some 7200⟩) ≠
      optional_datetime (some ⟨36000, some 0⟩) :=
  ⟨⟨rfl, rfl, by decide, by decide⟩,
    optional_datetime_offset_discard ⟨43200, some 7200⟩ ⟨36000, some 0⟩
      7200 0 rfl rfl (by decide) (by decide)⟩

end DdosFiltering
